import Mathlib

/-!
Verification of the TPC `DigitDump` filter and sort/dedup engine
(`Detectors/TPC/calibration/src/DigitDump.cxx`).

Modelling conventions:
* `Float_t` quantities (signals, pedestal, noise, thresholds) are embedded as
  exact rationals `ℚ`; all claims under study are order/control-flow claims.
* `std::sort` guarantees only that the output is a permutation of the input
  that is sorted with respect to the comparator (ties may be reordered: the
  function is not stable), so `sortDigits` is embedded as the relation
  `sortSpec` between input and output rather than a function.
* Geometry services (`Mapper`, `CRU`, `PadRegionInfo`) are external
  collaborators; they enter as an abstract `GeomService` record of functions.
-/

/-- One TPC digit, as used by `DigitDump` (CRU id, charge, row, pad, time bin).
The charge is the corrected charge stored at acceptance time. -/
structure Digit where
  cru : Int
  charge : ℚ
  row : Int
  pad : Int
  timeBin : Int
deriving DecidableEq

/-- The comparator passed to `std::sort` in `DigitDump::sortDigits`
(DigitDump.cxx lines 103-115): strict lexicographic order on
(time stamp, row, pad); the charge is not compared. -/
def digitLess (a b : Digit) : Bool :=
  if a.timeBin < b.timeBin then true
  else if a.timeBin = b.timeBin then
    if a.row < b.row then true
    else if a.row = b.row then decide (a.pad < b.pad)
    else false
  else false

/-- The `isEqual` predicate of `DigitDump::checkDuplicates`
(DigitDump.cxx lines 179-185): equality of (time stamp, row, pad). -/
def sameKey (a b : Digit) : Bool :=
  a.timeBin == b.timeBin && a.row == b.row && a.pad == b.pad

/-- Strict comparator order as a proposition. -/
def keyLT (a b : Digit) : Prop := digitLess a b = true

/-- Sortedness order induced by the comparator: `a` need not come strictly
before `b`, i.e. `b` does not come strictly before `a` (the `std::is_sorted`
condition for consecutive elements). -/
def keyLE (a b : Digit) : Prop := digitLess b a = false

/-- Key equality as a proposition. -/
def sameKeyP (a b : Digit) : Prop := sameKey a b = true

/-- Number of TPC sectors (`Sector::MAXSECTOR`, an external constant of the
detector geometry; one digit partition per sector). -/
def MAXSECTOR : Nat := 36

/-- The per-sector digit store `mDigits`
(`std::array<std::vector<Digit>, Sector::MAXSECTOR>`). -/
def DigitStore : Type := Fin MAXSECTOR → List Digit

/-- The store with all partitions empty. -/
def emptyStore : DigitStore := fun _ => []

/-- A pedestal or noise calibration table (`CalPad`):
(ROC, sector row, pad) to value. -/
def CalTable : Type := Int → Int → Int → ℚ

/-- Table lookup as performed in `DigitDump::updateCRU` lines 66-73: if no
table is loaded the value stays 0, otherwise `CalPad::getValue` is consulted. -/
def calValue (t : Option CalTable) (roc row pad : Int) : ℚ :=
  match t with
  | none => 0
  | some f => f roc row pad

/-- The filter configuration taken from `DigitDumpParam` in `DigitDump::init`. -/
structure FilterConfig where
  firstTimeBin : Int
  lastTimeBin : Int
  adcMin : ℚ
  adcMax : ℚ
  noiseThreshold : ℚ

/-- The external geometry collaborators (`Mapper`, `CRU`, `PadRegionInfo`),
abstracted as a record of functions of the CRU id. -/
structure GeomService where
  rowOffsetOfRegion : Int → Int
  regionOf : Int → Int
  isOROC : Int → Bool
  rowsROC0 : Int
  rocOf : Int → Int
  sectorOf : Int → Fin MAXSECTOR

/-- Global row of a pad row (DigitDump.cxx line 62):
`row + regionInfo.getGlobalRowOffset()`. -/
def globalRowOf (geo : GeomService) (cru row : Int) : Int :=
  row + geo.rowOffsetOfRegion (geo.regionOf cru)

/-- Sector row used to index the calibration tables (DigitDump.cxx line 63):
`globalRow - (rocType == OROC) * getNumberOfRowsROC(0)`. -/
def sectorRowOf (geo : GeomService) (cru row : Int) : Int :=
  globalRowOf geo cru row - (if geo.isOROC cru then 1 else 0) * geo.rowsROC0

/-- Modelled from the spec: `DigitDump::addDigit` is declared in
`DigitDump.h`, which is not among the sources; per the spec, acceptance emits
a digit carrying the corrected charge and appends it to the Digit Store
partition of the CRU's sector. `updateCRU` (line 93) passes the CRU, the
corrected charge, the global row, the pad and the time bin. -/
def addDigit (geo : GeomService) (st : DigitStore) (cru : Int) (charge : ℚ)
    (row pad timeBin : Int) : DigitStore :=
  Function.update st (geo.sectorOf cru)
    (st (geo.sectorOf cru) ++
      [{ cru := cru, charge := charge, row := row, pad := pad, timeBin := timeBin }])

/-- Tail of `DigitDump::updateCRU` (lines 86-95): the masked-pad check
followed by the digit fill. A non-empty pad mask containing
(ROC, sector row, pad) rejects with return value 1; otherwise the digit is
appended and 0 is returned. -/
def maskAndFill (geo : GeomService) (padMask : List (Int × Int × Int))
    (st : DigitStore) (cru sectorRow globalRow pad timeBin : Int)
    (signalCorr : ℚ) : Int × DigitStore :=
  if padMask.length ≠ 0 ∧ (geo.rocOf cru, sectorRow, pad) ∈ padMask then
    (1, st)
  else
    (0, addDigit geo st cru signalCorr globalRow pad timeBin)

/-- Shallow embedding of `DigitDump::updateCRU` (DigitDump.cxx lines 49-96):
time-window check, geometry resolution, pedestal/noise lookup, corrected
charge, ADC window check, noise-threshold check, then mask check and fill.
The lazy `initInputOutput()` call (lines 56-58) only loads the tables and the
output tree, which are parameters here. -/
def updateCRU (cfg : FilterConfig) (geo : GeomService) (ped noi : Option CalTable)
    (padMask : List (Int × Int × Int)) (st : DigitStore)
    (cru row pad timeBin : Int) (signal : ℚ) : Int × DigitStore :=
  if timeBin < cfg.firstTimeBin ∨ timeBin > cfg.lastTimeBin then (0, st)
  else
    let globalRow := globalRowOf geo cru row
    let sectorRow := sectorRowOf geo cru row
    let pedestal := calValue ped (geo.rocOf cru) sectorRow pad
    let noise := calValue noi (geo.rocOf cru) sectorRow pad
    let signalCorr := signal - pedestal
    if signalCorr < cfg.adcMin ∨ signalCorr > cfg.adcMax then (0, st)
    else if 0 < cfg.noiseThreshold ∧ signalCorr < noise * cfg.noiseThreshold then
      (0, st)
    else maskAndFill geo padMask st cru sectorRow globalRow pad timeBin signalCorr

instance (a b : Digit) : Decidable (keyLT a b) :=
  inferInstanceAs (Decidable (digitLess a b = true))

instance (a b : Digit) : Decidable (keyLE a b) :=
  inferInstanceAs (Decidable (digitLess b a = false))

instance (a b : Digit) : Decidable (sameKeyP a b) :=
  inferInstanceAs (Decidable (sameKey a b = true))

/-- The `std::is_sorted` condition with respect to the `sortDigits` comparator:
no element strictly precedes its predecessor. -/
def isSortedD : List Digit → Bool
  | a :: b :: t => !digitLess b a && isSortedD (b :: t)
  | _ => true

/-- Postcondition of the `std::sort` call in `DigitDump::sortDigits`
(lines 102-116): the output is a permutation of the input and is sorted with
respect to the comparator (no element strictly precedes its predecessor).
`std::sort` guarantees nothing more; in particular it is not stable. -/
def sortSpec (l ls : List Digit) : Prop :=
  List.Perm l ls ∧ isSortedD ls = true

instance (l ls : List Digit) : Decidable (sortSpec l ls) :=
  inferInstanceAs (Decidable (List.Perm l ls ∧ isSortedD ls = true))

/-- Relation of `DigitDump::sortDigits` on stores: every partition is sorted. -/
def sortStoreRel (st st' : DigitStore) : Prop :=
  ∀ s, sortSpec (st s) (st' s)

instance (st st' : DigitStore) : Decidable (sortStoreRel st st') :=
  inferInstanceAs (Decidable (∀ s : Fin MAXSECTOR, sortSpec (st s) (st' s)))

/-- Shallow embedding of `DigitDump::endEvent` (lines 120-128): sort the
store, hand the sorted partitions to the output tree (`mTree->Fill()`), then
clear all partitions. The result pair is (emitted store, store afterwards).
Clearing is modelled from the spec: `clearDigits` is declared in
`DigitDump.h`, not among the sources; per the spec it empties every
partition. -/
def endEventRel (st : DigitStore) (out : DigitStore × DigitStore) : Prop :=
  ∃ sorted, sortStoreRel st sorted ∧ out = (sorted, emptyStore)

/-- The `std::unique` scan of `DigitDump::checkDuplicates` (line 195): walk
the list comparing each element to the last kept element; drop it when the
keys agree, keep it otherwise. -/
def uniqueAux (last : Digit) : List Digit → List Digit
  | [] => []
  | b :: t => if sameKey last b then uniqueAux last t else b :: uniqueAux b t

/-- Behaviour of `std::unique(digits.begin(), digits.end(), isEqual)`: the first element
is always kept, the rest are filtered by `uniqueAux`. -/
def uniqueDigits : List Digit → List Digit
  | [] => []
  | a :: t => a :: uniqueAux a t

/-- The report-only scan of `DigitDump::checkDuplicates` (lines 199-203):
count adjacent pairs with equal keys. -/
def countAdjDup : List Digit → Nat
  | a :: b :: t => (if sameKey a b then 1 else 0) + countAdjDup (b :: t)
  | _ => 0

/-- Shallow embedding of `DigitDump::checkDuplicates` (lines 175-209): sort
first, then per partition either erase duplicates via `std::unique` and
record how many elements were erased, or scan adjacent pairs and record the
count without mutating. Empty partitions are skipped in the source, which
coincides with the scan producing the partition unchanged and count 0. -/
def checkDupRel (removeDuplicates : Bool) (st st' : DigitStore)
    (counts : Fin MAXSECTOR → Nat) : Prop :=
  ∃ sorted : DigitStore, sortStoreRel st sorted ∧
    ∀ s,
      if removeDuplicates then
        st' s = uniqueDigits (sorted s) ∧
        counts s = (sorted s).length - (uniqueDigits (sorted s)).length
      else
        st' s = sorted s ∧ counts s = countAdjDup (sorted s)

/-- The spec's description of duplicate removal (its own words, for
comparison with `uniqueDigits`): keep the first entry of each maximal run of
adjacent same-key entries and drop the rest of the run. -/
def runCollapse : List Digit → List Digit
  | [] => []
  | a :: t => a :: runCollapse (t.dropWhile (fun b => sameKey a b))
termination_by l => l.length
decreasing_by
  simp only [List.length_cons]
  exact Nat.lt_succ_of_le ((List.dropWhile_sublist _).length_le)

/-- A pedestal/noise calibration file: the two named objects "Pedestals" and
"Noise", either of which may be missing. -/
structure PedNoiseResource where
  pedestals : Option CalTable
  noise : Option CalTable

/-- Shallow embedding of `DigitDump::loadNoiseAndPedestal` (lines 131-151).
The file system is abstracted: `resource = none` models `TFile::Open`
failing (null handle, not open, or zombie), in which case the source raises
`LOG(FATAL)`; an empty path only logs a warning and leaves both tables
absent. On success the two tables are taken from the file. -/
def loadNoiseAndPedestal (path : String) (resource : Option PedNoiseResource) :
    Except String (Option CalTable × Option CalTable) :=
  if path.length = 0 then Except.ok (none, none)
  else
    match resource with
    | none => Except.error "Could not open pedestal file"
    | some r => Except.ok (r.pedestals, r.noise)

/-- Sector index 0 of the digit store. -/
def sector0 : Fin MAXSECTOR := ⟨0, by decide⟩

/-- A fully concrete geometry collaborator used for concrete evaluations:
every offset and id is 0 and all CRUs are IROCs of sector 0. -/
def geo0 : GeomService where
  rowOffsetOfRegion := fun _ => 0
  regionOf := fun _ => 0
  isOROC := fun _ => false
  rowsROC0 := 0
  rocOf := fun _ => 0
  sectorOf := fun _ => sector0

/-- A concrete filter configuration: time window [0, 100], ADC window
[0, 1000], noise rejection disabled. -/
def cfg0 : FilterConfig where
  firstTimeBin := 0
  lastTimeBin := 100
  adcMin := 0
  adcMax := 1000
  noiseThreshold := 0

/-- Concrete digit with key (time 5, row 2, pad 3) and charge 10. -/
def digitA : Digit := { cru := 0, charge := 10, row := 2, pad := 3, timeBin := 5 }

/-- Concrete digit with the same key as `digitA` but charge 9. -/
def digitB : Digit := { cru := 0, charge := 9, row := 2, pad := 3, timeBin := 5 }

/-- Concrete digit with key (time 3, row 1, pad 1) and charge 5. -/
def digitC : Digit := { cru := 0, charge := 5, row := 1, pad := 1, timeBin := 3 }

/-- A store whose partition 0 holds two digits with identical keys. -/
def dupStore : DigitStore :=
  fun s => if s = sector0 then [digitA, digitB] else []

/-- The store `dupStore` after duplicate removal: only the first of the tied pair stays. -/
def dedupedStore : DigitStore :=
  fun s => if s = sector0 then [digitA] else []

/-- Duplicate counts found when deduplicating `dupStore`. -/
def dupCounts : Fin MAXSECTOR → Nat :=
  fun s => if s = sector0 then 1 else 0

/-- The all-zero per-partition count. -/
def zeroCounts : Fin MAXSECTOR → Nat := fun _ => 0
theorem digitLess_iff (a b : Digit) :
    digitLess a b = true ↔
      (a.timeBin < b.timeBin ∨
        (a.timeBin = b.timeBin ∧
          (a.row < b.row ∨ (a.row = b.row ∧ a.pad < b.pad)))) := by
  unfold digitLess
  split_ifs with h1 h2 h3 h4 <;> simp_all

theorem sameKeyP_iff (a b : Digit) :
    sameKeyP a b ↔ (a.timeBin = b.timeBin ∧ a.row = b.row ∧ a.pad = b.pad) := by
  unfold sameKeyP sameKey
  simp [Bool.and_eq_true, and_assoc]

theorem keyLT_iff (a b : Digit) :
    keyLT a b ↔
      (a.timeBin < b.timeBin ∨
        (a.timeBin = b.timeBin ∧
          (a.row < b.row ∨ (a.row = b.row ∧ a.pad < b.pad)))) :=
  digitLess_iff a b

theorem keyLE_iff (a b : Digit) :
    keyLE a b ↔
      (a.timeBin < b.timeBin ∨
        (a.timeBin = b.timeBin ∧
          (a.row < b.row ∨ (a.row = b.row ∧ a.pad ≤ b.pad)))) := by
  unfold keyLE
  rw [← Bool.not_eq_true, digitLess_iff]
  omega

instance : IsTrans Digit keyLE where
  trans a b c hab hbc := by
    rw [keyLE_iff] at *
    omega

instance : IsTrans Digit keyLT where
  trans a b c hab hbc := by
    rw [keyLT_iff] at *
    omega

instance : IsAntisymm Digit keyLT where
  antisymm a b hab hba := by
    rw [keyLT_iff] at *
    omega

theorem keyLT_of_keyLE_not_sameKey {a b : Digit} (h : keyLE a b)
    (hne : ¬ sameKeyP a b) : keyLT a b := by
  rw [keyLE_iff] at h
  rw [sameKeyP_iff] at hne
  rw [keyLT_iff]
  omega

theorem not_sameKeyP_of_keyLT {a b : Digit} (h : keyLT a b) : ¬ sameKeyP a b := by
  rw [keyLT_iff] at h
  rw [sameKeyP_iff]
  omega

theorem sameKeyP_symm {a b : Digit} (h : sameKeyP a b) : sameKeyP b a := by
  rw [sameKeyP_iff] at *
  omega

theorem not_sameKeyP_symm {a b : Digit} (h : ¬ sameKeyP a b) : ¬ sameKeyP b a := by
  rw [sameKeyP_iff] at *
  omega

theorem sameKey_false_of_not {a b : Digit} (h : ¬ sameKeyP a b) :
    sameKey a b = false := by
  unfold sameKeyP at h
  exact Bool.not_eq_true _ ▸ eq_false_of_ne_true h

theorem sameKeyP_congr_left {a b c : Digit} (h : sameKeyP a b) :
    sameKeyP b c ↔ sameKeyP a c := by
  rw [sameKeyP_iff] at h
  rw [sameKeyP_iff, sameKeyP_iff]
  omega

theorem uniqueAux_length_le (last : Digit) (t : List Digit) :
    (uniqueAux last t).length ≤ t.length := by
  induction t generalizing last with
  | nil => simp [uniqueAux]
  | cons b t ih =>
    by_cases h : sameKey last b = true
    · simp only [uniqueAux, if_pos h]
      exact Nat.le_succ_of_le (ih last)
    · simp only [uniqueAux, if_neg h, List.length_cons]
      exact Nat.succ_le_succ (ih b)

theorem countAdjDup_cons_congr {a b : Digit} (h : sameKeyP a b)
    (t : List Digit) : countAdjDup (b :: t) = countAdjDup (a :: t) := by
  cases t with
  | nil => rfl
  | cons c t =>
    simp only [countAdjDup]
    congr 1
    by_cases hbc : sameKey b c = true
    · have hac : sameKey a c = true := (sameKeyP_congr_left h).mp hbc
      rw [if_pos hbc, if_pos hac]
    · have hac : ¬ sameKey a c = true :=
        fun hh => hbc ((sameKeyP_congr_left h).mpr hh)
      rw [if_neg hbc, if_neg hac]

theorem countAdjDup_uniqueAux (last : Digit) (t : List Digit) :
    countAdjDup (last :: t) = t.length - (uniqueAux last t).length := by
  induction t generalizing last with
  | nil => simp [countAdjDup, uniqueAux]
  | cons b t ih =>
    by_cases h : sameKey last b = true
    · have hcongr := countAdjDup_cons_congr (a := last) (b := b) h t
      have hle := uniqueAux_length_le last t
      simp only [countAdjDup, uniqueAux, if_pos h, hcongr, ih last]
      simp only [List.length_cons]
      omega
    · have hle := uniqueAux_length_le b t
      simp only [countAdjDup, uniqueAux, if_neg h, ih b]
      simp only [List.length_cons]
      omega

theorem countAdjDup_eq_removed (l : List Digit) :
    countAdjDup l = l.length - (uniqueDigits l).length := by
  cases l with
  | nil => rfl
  | cons a t =>
    simp only [uniqueDigits, List.length_cons, countAdjDup_uniqueAux a t]
    omega

theorem uniqueAux_cons_runCollapse (last : Digit) (t : List Digit) :
    last :: uniqueAux last t = runCollapse (last :: t) := by
  induction t generalizing last with
  | nil => simp [uniqueAux, runCollapse]
  | cons b t ih =>
    by_cases h : sameKey last b = true
    · have h2 := ih last
      simp only [runCollapse] at h2 ⊢
      simp only [uniqueAux, if_pos h]
      rw [List.dropWhile_cons, if_pos h]
      exact h2
    · have h2 := ih b
      simp only [runCollapse]
      simp only [uniqueAux, if_neg h]
      rw [List.dropWhile_cons, if_neg h, h2]

theorem uniqueDigits_eq_runCollapse (l : List Digit) :
    uniqueDigits l = runCollapse l := by
  cases l with
  | nil => simp [uniqueDigits, runCollapse]
  | cons a t =>
    simp only [uniqueDigits]
    exact uniqueAux_cons_runCollapse a t

theorem chain'_keyLE_cons_of_cons_cons {a b : Digit} {t : List Digit}
    (h : List.Chain' keyLE (a :: b :: t)) : List.Chain' keyLE (a :: t) := by
  rcases List.chain'_cons.mp h with ⟨hab, hbt⟩
  cases t with
  | nil => simp
  | cons c t =>
    rcases List.chain'_cons.mp hbt with ⟨hbc, hct⟩
    exact List.chain'_cons.mpr ⟨Trans.trans hab hbc, hct⟩

theorem chain_keyLT_uniqueAux (last : Digit) (t : List Digit)
    (h : List.Chain' keyLE (last :: t)) :
    List.Chain' keyLT (last :: uniqueAux last t) := by
  induction t generalizing last with
  | nil => simp [uniqueAux]
  | cons b t ih =>
    by_cases hk : sameKey last b = true
    · simp only [uniqueAux, if_pos hk]
      exact ih last (chain'_keyLE_cons_of_cons_cons h)
    · simp only [uniqueAux, if_neg hk]
      rcases List.chain'_cons.mp h with ⟨hab, hbt⟩
      have hlt : keyLT last b := keyLT_of_keyLE_not_sameKey hab hk
      exact List.chain'_cons.mpr ⟨hlt, ih b hbt⟩

theorem chain_keyLT_uniqueDigits (l : List Digit)
    (h : List.Chain' keyLE l) : List.Chain' keyLT (uniqueDigits l) := by
  cases l with
  | nil => simp [uniqueDigits]
  | cons a t => exact chain_keyLT_uniqueAux a t h

theorem uniqueAux_eq_of_strict (last : Digit) (t : List Digit)
    (h : List.Chain' keyLT (last :: t)) : uniqueAux last t = t := by
  induction t generalizing last with
  | nil => rfl
  | cons b t ih =>
    rcases List.chain'_cons.mp h with ⟨hab, hbt⟩
    have hk : sameKey last b ≠ true := not_sameKeyP_of_keyLT hab
    simp only [uniqueAux, if_neg hk]
    rw [ih b hbt]

theorem uniqueDigits_eq_of_strict (l : List Digit)
    (h : List.Chain' keyLT l) : uniqueDigits l = l := by
  cases l with
  | nil => rfl
  | cons a t => simp only [uniqueDigits, uniqueAux_eq_of_strict a t h]

theorem countAdjDup_eq_zero_of_strict (l : List Digit)
    (h : List.Chain' keyLT l) : countAdjDup l = 0 := by
  induction l with
  | nil => rfl
  | cons a t ih =>
    cases t with
    | nil => rfl
    | cons b t =>
      rcases List.chain'_cons.mp h with ⟨hab, hbt⟩
      have hk : sameKey a b ≠ true := not_sameKeyP_of_keyLT hab
      simp only [countAdjDup, if_neg hk, ih hbt]

theorem isSortedD_iff_chain (l : List Digit) :
    isSortedD l = true ↔ List.Chain' keyLE l := by
  induction l with
  | nil => simp [isSortedD]
  | cons a t ih =>
    cases t with
    | nil => simp [isSortedD]
    | cons b t =>
      rw [List.chain'_cons, ← ih]
      unfold keyLE
      simp only [isSortedD, Bool.and_eq_true, Bool.not_eq_true']

theorem sortSpec_strict_eq {l ls : List Digit}
    (hstrict : List.Chain' keyLT l) (h : sortSpec l ls) : ls = l := by
  rcases h with ⟨hperm, hchain⟩
  have hlp : List.Pairwise keyLT l := List.chain'_iff_pairwise.mp hstrict
  have hlsle : List.Pairwise keyLE ls :=
    List.chain'_iff_pairwise.mp ((isSortedD_iff_chain ls).mp hchain)
  have hlnk : List.Pairwise (fun a b => ¬ sameKeyP a b) l :=
    hlp.imp (fun hab => not_sameKeyP_of_keyLT hab)
  have hlsnk : List.Pairwise (fun a b => ¬ sameKeyP a b) ls :=
    (List.Perm.pairwise_iff (fun hxy => not_sameKeyP_symm hxy) hperm).mp hlnk
  have hlslt : List.Pairwise keyLT ls :=
    (hlsle.and hlsnk).imp (fun hab => keyLT_of_keyLE_not_sameKey hab.1 hab.2)
  exact (List.eq_of_perm_of_sorted hperm hlp hlslt).symm

/-- Claim C6: every sample with `timeBin < firstTimeBin` or
`timeBin > lastTimeBin` is rejected: `updateCRU` returns 0 and the store is
unchanged, for every signal value, every pedestal table, every noise table
and every pad mask — the rejection is independent of all of them, as it is
decided before any table lookup. -/
theorem updateCRU_time_window_reject (cfg : FilterConfig) (geo : GeomService)
    (ped noi : Option CalTable) (padMask : List (Int × Int × Int))
    (st : DigitStore) (cru row pad timeBin : Int) (signal : ℚ)
    (h : timeBin < cfg.firstTimeBin ∨ timeBin > cfg.lastTimeBin) :
    updateCRU cfg geo ped noi padMask st cru row pad timeBin signal = (0, st) := by
  unfold updateCRU
  rw [if_pos h]

/-- Witness for C6: the sample at time bin -1 is rejected under `cfg0`. -/
theorem updateCRU_time_window_reject_witness :
    ((-1 : Int) < cfg0.firstTimeBin ∨ (-1 : Int) > cfg0.lastTimeBin) ∧
    updateCRU cfg0 geo0 none none [] emptyStore 0 0 0 (-1) 5 = (0, emptyStore) :=
  ⟨Or.inl (by decide),
    updateCRU_time_window_reject cfg0 geo0 none none [] emptyStore 0 0 0 (-1) 5
      (Or.inl (by decide))⟩

/-- Claim C1: a call of `updateCRU` either leaves the store unchanged or
appends exactly one digit to the partition of the CRU's sector; every
appended digit carries the corrected charge `signal - pedestal` (the pedestal
taken from the table, 0 when absent), and that corrected charge lies in
`[ADCMin, ADCMax]` — for every configuration and every pedestal table. -/
theorem updateCRU_accepted_charge (cfg : FilterConfig) (geo : GeomService)
    (ped noi : Option CalTable) (padMask : List (Int × Int × Int))
    (st : DigitStore) (cru row pad timeBin : Int) (signal : ℚ) :
    (updateCRU cfg geo ped noi padMask st cru row pad timeBin signal).2 = st ∨
    ∃ d : Digit,
      (updateCRU cfg geo ped noi padMask st cru row pad timeBin signal).2 =
        Function.update st (geo.sectorOf cru) (st (geo.sectorOf cru) ++ [d]) ∧
      d.charge =
        signal - calValue ped (geo.rocOf cru) (sectorRowOf geo cru row) pad ∧
      cfg.adcMin ≤ d.charge ∧ d.charge ≤ cfg.adcMax := by
  simp only [updateCRU, maskAndFill, addDigit]
  split_ifs with h1 h2 h3 h4
  · exact Or.inl rfl
  · exact Or.inl rfl
  · exact Or.inl rfl
  · exact Or.inl rfl
  · push_neg at h2
    exact Or.inr ⟨_, rfl, rfl, h2.1, h2.2⟩

/-- Claim C7: for a sample that passed the time-window and amplitude checks,
noise rejection (return 0, store unchanged) triggers exactly when
`noiseThreshold > 0` and `correctedCharge < noise * noiseThreshold`; with
`noiseThreshold ≤ 0` the evaluation always proceeds to the mask stage
regardless of the noise table; and with a positive threshold, a nonnegative
noise value and a negative corrected charge the sample is always rejected as
noise (the comparison takes no absolute value). -/
theorem updateCRU_noise_rejection (cfg : FilterConfig) (geo : GeomService)
    (ped noi : Option CalTable) (padMask : List (Int × Int × Int))
    (st : DigitStore) (cru row pad timeBin : Int) (signal : ℚ)
    (h1 : ¬ (timeBin < cfg.firstTimeBin ∨ timeBin > cfg.lastTimeBin))
    (h2 : ¬ (signal - calValue ped (geo.rocOf cru) (sectorRowOf geo cru row) pad <
              cfg.adcMin ∨
            signal - calValue ped (geo.rocOf cru) (sectorRowOf geo cru row) pad >
              cfg.adcMax)) :
    (0 < cfg.noiseThreshold ∧
        signal - calValue ped (geo.rocOf cru) (sectorRowOf geo cru row) pad <
          calValue noi (geo.rocOf cru) (sectorRowOf geo cru row) pad *
            cfg.noiseThreshold →
      updateCRU cfg geo ped noi padMask st cru row pad timeBin signal = (0, st)) ∧
    (¬ (0 < cfg.noiseThreshold ∧
          signal - calValue ped (geo.rocOf cru) (sectorRowOf geo cru row) pad <
            calValue noi (geo.rocOf cru) (sectorRowOf geo cru row) pad *
              cfg.noiseThreshold) →
      updateCRU cfg geo ped noi padMask st cru row pad timeBin signal =
        maskAndFill geo padMask st cru (sectorRowOf geo cru row)
          (globalRowOf geo cru row) pad timeBin
          (signal - calValue ped (geo.rocOf cru) (sectorRowOf geo cru row) pad)) ∧
    (cfg.noiseThreshold ≤ 0 →
      updateCRU cfg geo ped noi padMask st cru row pad timeBin signal =
        maskAndFill geo padMask st cru (sectorRowOf geo cru row)
          (globalRowOf geo cru row) pad timeBin
          (signal - calValue ped (geo.rocOf cru) (sectorRowOf geo cru row) pad)) ∧
    (0 < cfg.noiseThreshold →
      0 ≤ calValue noi (geo.rocOf cru) (sectorRowOf geo cru row) pad →
      signal - calValue ped (geo.rocOf cru) (sectorRowOf geo cru row) pad < 0 →
      updateCRU cfg geo ped noi padMask st cru row pad timeBin signal = (0, st)) := by
  have hbase :
      updateCRU cfg geo ped noi padMask st cru row pad timeBin signal =
        if 0 < cfg.noiseThreshold ∧
            signal - calValue ped (geo.rocOf cru) (sectorRowOf geo cru row) pad <
              calValue noi (geo.rocOf cru) (sectorRowOf geo cru row) pad *
                cfg.noiseThreshold
          then (0, st)
          else maskAndFill geo padMask st cru (sectorRowOf geo cru row)
            (globalRowOf geo cru row) pad timeBin
            (signal - calValue ped (geo.rocOf cru) (sectorRowOf geo cru row) pad) := by
    simp only [updateCRU]
    rw [if_neg h1, if_neg h2]
  refine ⟨fun hn => ?_, fun hn => ?_, fun hle => ?_, fun hpos hnn hneg => ?_⟩
  · rw [hbase, if_pos hn]
  · rw [hbase, if_neg hn]
  · rw [hbase, if_neg (fun hc => absurd hc.1 (not_lt.mpr hle))]
  · exact hbase.trans
      (if_pos ⟨hpos, lt_of_lt_of_le hneg (mul_nonneg hnn (le_of_lt hpos))⟩)

/-- Witness for C7: under `cfg0` (noise threshold 0), a signal of 5 at time
bin 2 passes the first two checks and the conclusion holds. -/
theorem updateCRU_noise_rejection_witness :
    (¬ ((2 : Int) < cfg0.firstTimeBin ∨ (2 : Int) > cfg0.lastTimeBin)) ∧
    (¬ ((5 : ℚ) - calValue none (geo0.rocOf 0) (sectorRowOf geo0 0 0) 0 <
          cfg0.adcMin ∨
        (5 : ℚ) - calValue none (geo0.rocOf 0) (sectorRowOf geo0 0 0) 0 >
          cfg0.adcMax)) ∧
    ((0 < cfg0.noiseThreshold ∧
        (5 : ℚ) - calValue none (geo0.rocOf 0) (sectorRowOf geo0 0 0) 0 <
          calValue none (geo0.rocOf 0) (sectorRowOf geo0 0 0) 0 *
            cfg0.noiseThreshold →
      updateCRU cfg0 geo0 none none [] emptyStore 0 0 0 2 5 = (0, emptyStore)) ∧
    (¬ (0 < cfg0.noiseThreshold ∧
          (5 : ℚ) - calValue none (geo0.rocOf 0) (sectorRowOf geo0 0 0) 0 <
            calValue none (geo0.rocOf 0) (sectorRowOf geo0 0 0) 0 *
              cfg0.noiseThreshold) →
      updateCRU cfg0 geo0 none none [] emptyStore 0 0 0 2 5 =
        maskAndFill geo0 [] emptyStore 0 (sectorRowOf geo0 0 0)
          (globalRowOf geo0 0 0) 0 2
          ((5 : ℚ) - calValue none (geo0.rocOf 0) (sectorRowOf geo0 0 0) 0)) ∧
    (cfg0.noiseThreshold ≤ 0 →
      updateCRU cfg0 geo0 none none [] emptyStore 0 0 0 2 5 =
        maskAndFill geo0 [] emptyStore 0 (sectorRowOf geo0 0 0)
          (globalRowOf geo0 0 0) 0 2
          ((5 : ℚ) - calValue none (geo0.rocOf 0) (sectorRowOf geo0 0 0) 0)) ∧
    (0 < cfg0.noiseThreshold →
      0 ≤ calValue none (geo0.rocOf 0) (sectorRowOf geo0 0 0) 0 →
      (5 : ℚ) - calValue none (geo0.rocOf 0) (sectorRowOf geo0 0 0) 0 < 0 →
      updateCRU cfg0 geo0 none none [] emptyStore 0 0 0 2 5 = (0, emptyStore))) :=
  ⟨by decide, by norm_num [calValue, cfg0],
    updateCRU_noise_rejection cfg0 geo0 none none [] emptyStore 0 0 0 2 5
      (by decide) (by norm_num [calValue, cfg0])⟩

/-- Claim C8: for a sample that passed the time-window, amplitude and noise
checks, evaluation reaches the mask stage (the mask is consulted last); if
(ROC, sector row, pad) is in the pad mask the sample is rejected (return 1,
store unchanged, no digit appended), and with an empty mask the sample is
always accepted and appended. -/
theorem updateCRU_mask_rejection (cfg : FilterConfig) (geo : GeomService)
    (ped noi : Option CalTable) (padMask : List (Int × Int × Int))
    (st : DigitStore) (cru row pad timeBin : Int) (signal : ℚ)
    (h1 : ¬ (timeBin < cfg.firstTimeBin ∨ timeBin > cfg.lastTimeBin))
    (h2 : ¬ (signal - calValue ped (geo.rocOf cru) (sectorRowOf geo cru row) pad <
              cfg.adcMin ∨
            signal - calValue ped (geo.rocOf cru) (sectorRowOf geo cru row) pad >
              cfg.adcMax))
    (h3 : ¬ (0 < cfg.noiseThreshold ∧
            signal - calValue ped (geo.rocOf cru) (sectorRowOf geo cru row) pad <
              calValue noi (geo.rocOf cru) (sectorRowOf geo cru row) pad *
                cfg.noiseThreshold)) :
    (updateCRU cfg geo ped noi padMask st cru row pad timeBin signal =
      maskAndFill geo padMask st cru (sectorRowOf geo cru row)
        (globalRowOf geo cru row) pad timeBin
        (signal - calValue ped (geo.rocOf cru) (sectorRowOf geo cru row) pad)) ∧
    ((geo.rocOf cru, sectorRowOf geo cru row, pad) ∈ padMask →
      updateCRU cfg geo ped noi padMask st cru row pad timeBin signal = (1, st)) ∧
    (padMask = [] →
      updateCRU cfg geo ped noi padMask st cru row pad timeBin signal =
        (0, addDigit geo st cru
          (signal - calValue ped (geo.rocOf cru) (sectorRowOf geo cru row) pad)
          (globalRowOf geo cru row) pad timeBin)) := by
  have hbase :
      updateCRU cfg geo ped noi padMask st cru row pad timeBin signal =
        maskAndFill geo padMask st cru (sectorRowOf geo cru row)
          (globalRowOf geo cru row) pad timeBin
          (signal - calValue ped (geo.rocOf cru) (sectorRowOf geo cru row) pad) := by
    simp only [updateCRU]
    rw [if_neg h1, if_neg h2, if_neg h3]
  refine ⟨hbase, fun hmem => ?_, fun hnil => ?_⟩
  · rw [hbase]
    unfold maskAndFill
    rw [if_pos ⟨fun h0 => (List.ne_nil_of_mem hmem) (List.length_eq_zero.mp h0), hmem⟩]
  · subst hnil
    rw [hbase]
    unfold maskAndFill
    rw [if_neg (fun hc => hc.1 rfl)]

/-- Witness for C8: under `cfg0` with the empty mask, the signal 5 sample at
time bin 2 reaches the mask stage and is accepted. -/
theorem updateCRU_mask_rejection_witness :
    (¬ ((2 : Int) < cfg0.firstTimeBin ∨ (2 : Int) > cfg0.lastTimeBin)) ∧
    (¬ ((5 : ℚ) - calValue none (geo0.rocOf 0) (sectorRowOf geo0 0 0) 0 <
          cfg0.adcMin ∨
        (5 : ℚ) - calValue none (geo0.rocOf 0) (sectorRowOf geo0 0 0) 0 >
          cfg0.adcMax)) ∧
    (¬ (0 < cfg0.noiseThreshold ∧
          (5 : ℚ) - calValue none (geo0.rocOf 0) (sectorRowOf geo0 0 0) 0 <
            calValue none (geo0.rocOf 0) (sectorRowOf geo0 0 0) 0 *
              cfg0.noiseThreshold)) ∧
    ((updateCRU cfg0 geo0 none none [] emptyStore 0 0 0 2 5 =
        maskAndFill geo0 [] emptyStore 0 (sectorRowOf geo0 0 0)
          (globalRowOf geo0 0 0) 0 2
          ((5 : ℚ) - calValue none (geo0.rocOf 0) (sectorRowOf geo0 0 0) 0)) ∧
      ((geo0.rocOf 0, sectorRowOf geo0 0 0, (0 : Int)) ∈ ([] : List (Int × Int × Int)) →
        updateCRU cfg0 geo0 none none [] emptyStore 0 0 0 2 5 = (1, emptyStore)) ∧
      (([] : List (Int × Int × Int)) = [] →
        updateCRU cfg0 geo0 none none [] emptyStore 0 0 0 2 5 =
          (0, addDigit geo0 emptyStore 0
            ((5 : ℚ) - calValue none (geo0.rocOf 0) (sectorRowOf geo0 0 0) 0)
            (globalRowOf geo0 0 0) 0 2))) :=
  ⟨by decide, by norm_num [calValue, cfg0],
    fun hc => absurd hc.1 (by decide),
    updateCRU_mask_rejection cfg0 geo0 none none [] emptyStore 0 0 0 2 5
      (by decide) (by norm_num [calValue, cfg0])
      (fun hc => absurd hc.1 (by decide))⟩

/-- Claim C10: `updateCRU` returns 1 exactly when the sample passes the
time-window, amplitude and noise checks and its (ROC, sector row, pad)
coordinate is found in a non-empty pad mask; in every other case — including
acceptance — it returns 0, so the return value does not distinguish
acceptance from time/amplitude/noise rejection. -/
theorem updateCRU_return_value (cfg : FilterConfig) (geo : GeomService)
    (ped noi : Option CalTable) (padMask : List (Int × Int × Int))
    (st : DigitStore) (cru row pad timeBin : Int) (signal : ℚ) :
    ((updateCRU cfg geo ped noi padMask st cru row pad timeBin signal).1 = 1 ↔
      (¬ (timeBin < cfg.firstTimeBin ∨ timeBin > cfg.lastTimeBin) ∧
       ¬ (signal - calValue ped (geo.rocOf cru) (sectorRowOf geo cru row) pad <
            cfg.adcMin ∨
          signal - calValue ped (geo.rocOf cru) (sectorRowOf geo cru row) pad >
            cfg.adcMax) ∧
       ¬ (0 < cfg.noiseThreshold ∧
          signal - calValue ped (geo.rocOf cru) (sectorRowOf geo cru row) pad <
            calValue noi (geo.rocOf cru) (sectorRowOf geo cru row) pad *
              cfg.noiseThreshold) ∧
       padMask ≠ [] ∧
       (geo.rocOf cru, sectorRowOf geo cru row, pad) ∈ padMask)) ∧
    ((updateCRU cfg geo ped noi padMask st cru row pad timeBin signal).1 = 0 ∨
     (updateCRU cfg geo ped noi padMask st cru row pad timeBin signal).1 = 1) := by
  simp only [updateCRU, maskAndFill]
  split_ifs with h1 h2 h3 h4
  · exact ⟨⟨fun h => absurd h (by simp), fun hr => absurd h1 hr.1⟩, Or.inl rfl⟩
  · exact ⟨⟨fun h => absurd h (by simp), fun hr => absurd h2 hr.2.1⟩, Or.inl rfl⟩
  · exact ⟨⟨fun h => absurd h (by simp), fun hr => absurd h3 hr.2.2.1⟩, Or.inl rfl⟩
  · refine ⟨⟨fun _ => ⟨h1, h2, h3, ?_, h4.2⟩, fun _ => rfl⟩, Or.inr rfl⟩
    exact fun hnil => h4.1 (by rw [hnil]; rfl)
  · refine ⟨⟨fun h => absurd h (by simp), fun hr => absurd ?_ h4⟩, Or.inl rfl⟩
    exact ⟨fun h0 => hr.2.2.2.1 (List.length_eq_zero.mp h0), hr.2.2.2.2⟩

/-- Claim C9: table loading is asymmetric. With an empty path the load
succeeds with both tables absent (a legitimate mode in which every pedestal
and noise lookup yields 0, so filtering behaves exactly as with all-zero
tables); with a non-empty path whose resource cannot be opened the load
fails fatally. -/
theorem loadNoiseAndPedestal_asymmetry (path : String) (h : path ≠ "") :
    (∀ r : Option PedNoiseResource,
      loadNoiseAndPedestal "" r = Except.ok (none, none)) ∧
    (∃ msg, loadNoiseAndPedestal path none = Except.error msg) ∧
    (∀ roc row pad, calValue none roc row pad = 0) ∧
    (∀ cfg geo padMask st cru row pad timeBin signal,
      updateCRU cfg geo none none padMask st cru row pad timeBin signal =
        updateCRU cfg geo (some fun _ _ _ => 0) (some fun _ _ _ => 0)
          padMask st cru row pad timeBin signal) := by
  refine ⟨fun r => rfl, ?_, fun roc row pad => rfl, ?_⟩
  · have hlen : path.length ≠ 0 := by
      intro h0
      apply h
      cases path with
      | mk data =>
        cases data with
        | nil => rfl
        | cons c cs => simp [String.length] at h0
    exact ⟨"Could not open pedestal file", by
      unfold loadNoiseAndPedestal
      rw [if_neg hlen]⟩
  · intro cfg geo padMask st cru row pad timeBin signal
    simp only [updateCRU, calValue]

/-- Witness for C9: the non-empty path "pedestals.root". -/
theorem loadNoiseAndPedestal_asymmetry_witness :
    ("pedestals.root" ≠ "") ∧
    ((∀ r : Option PedNoiseResource,
        loadNoiseAndPedestal "" r = Except.ok (none, none)) ∧
      (∃ msg, loadNoiseAndPedestal "pedestals.root" none = Except.error msg) ∧
      (∀ roc row pad, calValue none roc row pad = 0) ∧
      (∀ cfg geo padMask st cru row pad timeBin signal,
        updateCRU cfg geo none none padMask st cru row pad timeBin signal =
          updateCRU cfg geo (some fun _ _ _ => 0) (some fun _ _ _ => 0)
            padMask st cru row pad timeBin signal)) :=
  ⟨by decide, loadNoiseAndPedestal_asymmetry "pedestals.root" (by decide)⟩

/-- Counterexample to claim C2: `endEvent` performs no deduplication (it only
sorts, emits and clears). The store whose partition 0 holds `digitA` and
`digitB` — two distinct digits with identical (time bin, row, pad) keys,
already in sorted order — is a legal end-of-event emission of itself, and the
emitted partition 0 contains two entries with identical keys. -/
theorem endEvent_emits_duplicates_cex :
    endEventRel dupStore (dupStore, emptyStore) ∧
    dupStore sector0 = [digitA, digitB] ∧
    sameKeyP digitA digitB ∧ digitA ≠ digitB ∧
    ¬ List.Pairwise (fun a b => ¬ sameKeyP a b) (dupStore sector0) := by
  refine ⟨⟨dupStore, by decide, rfl⟩, by decide, by decide, by decide, ?_⟩
  intro hpw
  rw [show dupStore sector0 = [digitA, digitB] from by decide] at hpw
  exact (List.pairwise_cons.mp hpw).1 digitB (by simp) (by decide)

/-- Claim C2 (amended): at every event boundary the engine sorts each
partition, hands off the sorted partitions, and clears all partitions: the
end-of-event step is Sort, Emit, Clear, and each emitted partition is a
permutation of the stored one in non-decreasing (time bin, row, pad) order —
but it is not deduplicated (duplicate removal is the separate, opt-in
`checkDuplicates` pass). -/
theorem endEvent_sort_emit_clear (st : DigitStore) (out : DigitStore × DigitStore)
    (h : endEventRel st out) :
    (∀ s, List.Perm (out.1 s) (st s) ∧ isSortedD (out.1 s) = true) ∧
    (∀ s, out.2 s = []) := by
  rcases h with ⟨sorted, hsort, rfl⟩
  exact ⟨fun s => ⟨(hsort s).1.symm, (hsort s).2⟩, fun s => rfl⟩

/-- Witness for the amended C2 at the concrete store `dupStore`. -/
theorem endEvent_sort_emit_clear_witness :
    endEventRel dupStore (dupStore, emptyStore) ∧
    ((∀ s, List.Perm (dupStore s) (dupStore s) ∧ isSortedD (dupStore s) = true) ∧
      (∀ s : Fin MAXSECTOR, emptyStore s = [])) := by
  have hrel : endEventRel dupStore (dupStore, emptyStore) := ⟨dupStore, by decide, rfl⟩
  exact ⟨hrel, endEvent_sort_emit_clear dupStore (dupStore, emptyStore) hrel⟩

/-- Counterexample to claim C3: the sort is not stable and not structurally
idempotent. On the partition `[digitA, digitB]` — already sorted, with both
digits tied on all three keys but carrying different charges — the output
`[digitB, digitA]` also satisfies the full postcondition of the `std::sort`
call (a sorted permutation), yet it swaps the tied entries and differs
structurally from the sorted input. -/
theorem sortDigits_not_stable_cex :
    sortSpec [digitA, digitB] [digitB, digitA] ∧
    isSortedD [digitA, digitB] = true ∧
    [digitB, digitA] ≠ [digitA, digitB] := by
  refine ⟨⟨?_, by decide⟩, by decide, by decide⟩
  decide

/-- Claim C3 (amended): `sortDigits` permutes each partition into
non-decreasing lexicographic (time bin, row, pad) order; the relative order
of entries tied on all three keys is unspecified (`std::sort` is used, which
is not stable), and resorting a partition whose keys are strictly increasing
— in particular any sorted partition free of duplicate keys — is a
structural no-op. -/
theorem sortDigits_sorts (l ls : List Digit) (h : sortSpec l ls) :
    List.Perm ls l ∧ List.Chain' keyLE ls ∧
    (List.Chain' keyLT l → ls = l) :=
  ⟨h.1.symm, (isSortedD_iff_chain ls).mp h.2, fun hs => sortSpec_strict_eq hs h⟩

/-- Witness for the amended C3: sorting the unsorted partition
`[digitA, digitC]` yields `[digitC, digitA]`. -/
theorem sortDigits_sorts_witness :
    sortSpec [digitA, digitC] [digitC, digitA] ∧
    (List.Perm [digitC, digitA] [digitA, digitC] ∧
      List.Chain' keyLE [digitC, digitA] ∧
      (List.Chain' keyLT [digitA, digitC] → [digitC, digitA] = [digitA, digitC])) :=
  ⟨by decide, sortDigits_sorts [digitA, digitC] [digitC, digitA] (by decide)⟩

/-- Claim C4: `checkDuplicates` with removeDuplicates=true is idempotent:
after one removing call, a second call — with either policy — finds, reports
and removes zero duplicates in every partition, and leaves every partition
unchanged. -/
theorem checkDuplicates_idempotent (b : Bool) (st st1 st2 : DigitStore)
    (c1 c2 : Fin MAXSECTOR → Nat)
    (h1 : checkDupRel true st st1 c1) (h2 : checkDupRel b st1 st2 c2) :
    (∀ s, c2 s = 0) ∧ (∀ s, st2 s = st1 s) := by
  rcases h1 with ⟨s1, hs1, hp1⟩
  rcases h2 with ⟨s2, hs2, hp2⟩
  have hstrict : ∀ s, List.Chain' keyLT (st1 s) := by
    intro s
    have hpart := hp1 s
    rw [if_pos rfl] at hpart
    rw [hpart.1]
    exact chain_keyLT_uniqueDigits _ ((isSortedD_iff_chain _).mp (hs1 s).2)
  have hseq : ∀ s, s2 s = st1 s := fun s => sortSpec_strict_eq (hstrict s) (hs2 s)
  have main : ∀ s, c2 s = 0 ∧ st2 s = st1 s := by
    intro s
    have hpart := hp2 s
    cases b with
    | true =>
      rw [if_pos rfl] at hpart
      rw [hseq s, uniqueDigits_eq_of_strict _ (hstrict s)] at hpart
      exact ⟨by rw [hpart.2, Nat.sub_self], hpart.1⟩
    | false =>
      rw [if_neg (by simp)] at hpart
      rw [hseq s] at hpart
      exact ⟨by rw [hpart.2, countAdjDup_eq_zero_of_strict _ (hstrict s)], hpart.1⟩
  exact ⟨fun s => (main s).1, fun s => (main s).2⟩

/-- Witness for C4: deduplicating `dupStore` yields `dedupedStore` with one
duplicate removed; a second removing call reports zero and changes nothing. -/
theorem checkDuplicates_idempotent_witness :
    checkDupRel true dupStore dedupedStore dupCounts ∧
    checkDupRel true dedupedStore dedupedStore zeroCounts ∧
    ((∀ s, zeroCounts s = 0) ∧ (∀ s, dedupedStore s = dedupedStore s)) :=
  ⟨⟨dupStore, by decide, by decide⟩, ⟨dedupedStore, by decide, by decide⟩,
    checkDuplicates_idempotent true dupStore dedupedStore dedupedStore
      dupCounts zeroCounts
      ⟨dupStore, by decide, by decide⟩ ⟨dedupedStore, by decide, by decide⟩⟩

/-- Claim C5: `checkDuplicates` first sorts; then, per partition, remove mode
collapses each maximal run of adjacent same-key entries to the run's first
entry in sorted order, and the reported count equals the number of removed
entries, which equals the number of adjacent same-key pairs (run lengths
minus one, summed over runs); report-only mode reports that very same count
and leaves the partition's multiset of digits unchanged. -/
theorem checkDuplicates_semantics (remove : Bool) (st st' : DigitStore)
    (counts : Fin MAXSECTOR → Nat) (h : checkDupRel remove st st' counts) :
    ∃ sorted : DigitStore, sortStoreRel st sorted ∧
      ∀ s,
        counts s = countAdjDup (sorted s) ∧
        counts s = (sorted s).length - (runCollapse (sorted s)).length ∧
        (remove = true → st' s = runCollapse (sorted s)) ∧
        (remove = false → List.Perm (st' s) (st s)) := by
  rcases h with ⟨sorted, hsort, hpart⟩
  refine ⟨sorted, hsort, fun s => ?_⟩
  have hp := hpart s
  cases remove with
  | true =>
    rw [if_pos rfl] at hp
    refine ⟨hp.2.trans (countAdjDup_eq_removed _).symm, ?_, fun _ => ?_,
      fun hf => absurd hf (by simp)⟩
    · exact (uniqueDigits_eq_runCollapse (sorted s)) ▸ hp.2
    · exact hp.1.trans (uniqueDigits_eq_runCollapse _)
  | false =>
    rw [if_neg (by simp)] at hp
    refine ⟨hp.2, ?_, fun hf => absurd hf (by simp), fun _ => ?_⟩
    · exact hp.2.trans
        ((uniqueDigits_eq_runCollapse (sorted s)) ▸ countAdjDup_eq_removed (sorted s))
    · rw [hp.1]
      exact (hsort s).1.symm

/-- Witness for C5: the removing call on `dupStore`. -/
theorem checkDuplicates_semantics_witness :
    checkDupRel true dupStore dedupedStore dupCounts ∧
    (∃ sorted : DigitStore, sortStoreRel dupStore sorted ∧
      ∀ s,
        dupCounts s = countAdjDup (sorted s) ∧
        dupCounts s = (sorted s).length - (runCollapse (sorted s)).length ∧
        (true = true → dedupedStore s = runCollapse (sorted s)) ∧
        (true = false → List.Perm (dedupedStore s) (dupStore s))) :=
  ⟨⟨dupStore, by decide, by decide⟩,
    checkDuplicates_semantics true dupStore dedupedStore dupCounts
      ⟨dupStore, by decide, by decide⟩⟩
